import Mathlib

/-!
Shallow embedding of the retrieval-augmented inference proxy of the
enterprise-rag-system repository, together with theorems checking the
natural-language specification against it.

The repository contains two proxy implementations:
  - src/services/rag-wrapper/rag_api.py   (namespace RagApi below)
  - src/services/rag-wrapper/injector.py  (namespace Injector below)
and an indexing helper src/services/data-indexer/base.py (namespace Indexer).

Modelling conventions:
  - JSON request dicts become the structure Req: the fields the proxies read
    or write (prompt, messages, stream) are explicit, every other key is the
    opaque association list rest, which the code never touches.
  - The three remote services (embedding service, vector index, generation
    backend) are an explicit environment Env: each outbound call is a function
    from the request the code sends to an Option of (status code, parsed
    body); none models a transport error or a body whose parsing raises,
    which the source handles through the same except-branches.
  - Scores and embedding vectors are rationals; floats carry no arithmetic
    in this code, they are only compared and forwarded.
  - Python unicodedata (NFD decomposition, Mn category) and str.lower are
    standard-library tables external to the repository; they are modelled
    as an explicit table parameter UTables, and theorems about the
    normalization quantify over tables satisfying the properties the real
    Unicode tables have.
  - hashlib.md5 is likewise external; hash_id is parametrized by the
    hex-digest function.
-/

/-- One chat turn, a JSON object with optional role and content keys and
further keys the code never reads (msg.get with defaults in the source). -/
structure Message where
  role : Option String
  content : Option String
  rest : List (String × String)
deriving DecidableEq

/-- A request body as both proxies see it: a JSON dict with the keys the
code reads or writes made explicit and all the rest opaque. -/
structure Req where
  prompt : Option String
  messages : Option (List Message)
  stream : Option Bool
  rest : List (String × String)
deriving DecidableEq

/-- One hit in a vector-search response: the optional content key of the
payload, and the similarity score. -/
structure SearchHit where
  content : Option String
  score : Rat
deriving DecidableEq

/-- The JSON body of a vector-search request as the proxies issue it:
vector, limit, with_payload, and an optional score_threshold. -/
structure SearchReq where
  vector : List Rat
  limit : Nat
  score_threshold : Option Rat
  with_payload : Bool
deriving DecidableEq

/-- The remote services, as functions from the issued request to the
outcome: none is a transport error or a response whose parsing raises;
some (st, body) is a reply with HTTP status st and parsed body. -/
structure Env where
  embed : String → Option (Nat × List Rat)
  search : SearchReq → Option (Nat × List SearchHit)

/-- Outcome of one outbound call, as the guard code of the source sees it:
either an exception was raised (none) or the status code is not 200. -/
def CallFails {α : Type} (r : Option (Nat × α)) : Prop :=
  r = none ∨ ∃ st x, r = some (st, x) ∧ st ≠ 200

/-! ## Unicode normalization model (rag_api.py lines 16-25)

The source computes
  normalized = query.replace("Â¿", "").replace("?", "").lower()
  normalized = join of c for c in unicodedata.normalize("NFD", normalized)
               if unicodedata.category(c) != "Mn"
str.lower, NFD and the Mn category are Python standard-library data,
modelled by the table parameter below. -/

/-- The standard-library character data the normalization uses: the
lowercase mapping of str.lower, the canonical NFD decomposition, and the
Mn (nonspacing mark) category test. -/
structure UTables where
  lower : Char → List Char
  decomp : Char → List Char
  isMn : Char → Bool

/-- Python str.replace of the two-character sequence Â¿ with the empty
string: a left-to-right scan removing each non-overlapping occurrence. -/
def replaceMojibake : List Char → List Char
  | [] => []
  | [c] => [c]
  | c1 :: c2 :: rest =>
    if c1 = 'Â' ∧ c2 = '¿' then replaceMojibake rest
    else c1 :: replaceMojibake (c2 :: rest)

/-- Python str.replace of the single character ? with the empty string. -/
def removeQuestion (l : List Char) : List Char :=
  l.filter (fun c => c ≠ '?')

/-- Python str.lower, character by character through the table. -/
def lowerChars (T : UTables) (l : List Char) : List Char :=
  l.flatMap T.lower

/-- unicodedata.normalize NFD, through the decomposition table. -/
def nfdChars (T : UTables) (l : List Char) : List Char :=
  l.flatMap T.decomp

/-- Dropping the characters whose category is Mn. -/
def stripMarks (T : UTables) (l : List Char) : List Char :=
  l.filter (fun c => ¬ T.isMn c)

/-- The full normalization rag_api.py applies to the query before the
embedding call (lines 20-25 of the source, steps in source order). -/
def normalizeQuery (T : UTables) (q : String) : String :=
  ⟨stripMarks T (nfdChars T (lowerChars T (removeQuestion (replaceMojibake q.data))))⟩

namespace Indexer

/-- Numeric value of one lowercase hex digit, as int(s, 16) reads it
(hashlib hex digests only contain such digits). -/
def hexVal (c : Char) : Nat :=
  if '0' ≤ c ∧ c ≤ '9' then c.toNat - '0'.toNat
  else if 'a' ≤ c ∧ c ≤ 'f' then c.toNat - 'a'.toNat + 10
  else 0

/-- Python int(s, 16) on a hex-digest string. -/
def hexToNat (s : String) : Nat :=
  s.data.foldl (fun a c => 16 * a + hexVal c) 0

/-- hash_id from src/services/data-indexer/base.py lines 21-24: join the
parts with a double colon, take the md5 hex digest, read it as a hex
integer and reduce modulo 2 to the 31. The md5 hex-digest function of
hashlib is external library code, passed as the parameter md5hex. -/
def hash_id (md5hex : String → String) (parts : List String) : Nat :=
  hexToNat (md5hex (String.intercalate "::" parts)) % (2 ^ 31)

end Indexer

/-- The response of the generation backend to one forwarded request, as
the proxies observe it: its HTTP status code, and some s when resp.json()
parses (s standing for the parsed JSON body), none when parsing raises. -/
structure UpstreamResp where
  status : Nat
  jsonBody : Option String
deriving DecidableEq

/-- The body a proxy hands back to its caller: the relayed upstream JSON,
the except-branch JSON error envelope built by the proxy, or the page the
web framework produces for an unhandled exception. -/
inductive BodyOut
  | relayed (s : String)
  | errorEnvelope
  | internalError
deriving DecidableEq

/-- The body of a health reply. -/
inductive HealthBody
  | ok
  | err
deriving DecidableEq

/-- The route classes the two Flask apps register: the generate endpoint,
the chat endpoint, and the generic api passthrough for any other path. -/
inductive RoutePath
  | generate
  | chat
  | api (other : String)
deriving DecidableEq

namespace RagApi

/-- The vector-search request body rag_api.py issues (lines 33-36):
limit 2, with_payload true, and no score_threshold key at all. -/
def searchReq (vec : List Rat) : SearchReq :=
  { vector := vec, limit := 2, score_threshold := none, with_payload := true }

/-- get_rag_context from rag_api.py lines 13-50.  The whole body is one
try-block whose except-branch returns None, so every transport error,
non-200 status, or parse failure yields none; hits whose payload lacks a
content key are skipped; an empty document list yields none, otherwise
the contents joined by blank lines. -/
def get_rag_context (T : UTables) (env : Env) (query : String) : Option String :=
  match env.embed (normalizeQuery T query) with
  | none => none
  | some (st, vec) =>
    if st ≠ 200 then none
    else
      match env.search (searchReq vec) with
      | none => none
      | some (st2, hits) =>
        if st2 ≠ 200 then none
        else
          let docs := hits.filterMap SearchHit.content
          if docs = [] then none
          else some (String.intercalate "\n\n" docs)

/-- The augmented prompt rag_api.py line 61 builds from the context and
the original prompt. -/
def buildPrompt (context prompt : String) : String :=
  "INFORMACION:\n" ++ context ++ "\n\n---\n\nBasandote en la informacion anterior:\n" ++ prompt

/-- The augmentation step of the generate endpoint (rag_api.py lines
55-61): read the prompt with default empty, fetch context, and if the
context is truthy overwrite the prompt key. -/
def generateAugment (T : UTables) (env : Env) (data : Req) : Req :=
  let prompt := data.prompt.getD ""
  match get_rag_context T env prompt with
  | some context =>
    if context = "" then data
    else { data with prompt := some (buildPrompt context prompt) }
  | none => data

/-- The query-extraction loop of the chat endpoint (rag_api.py lines
74-79): walk the messages in reverse and take the content, default
empty, of the first one whose role is user. -/
def lastUserContent (msgs : List Message) : String :=
  match msgs.reverse.find? (fun m => m.role == some "user") with
  | some m => m.content.getD ""
  | none => ""

/-- The rewrite applied to the chosen message (rag_api.py line 89). -/
def injectMsg (context : String) (m : Message) : Message :=
  { m with content := some ("[Context Information]\n" ++ context ++ "\n\n[Question]\n" ++ m.content.getD "") }

/-- Rewrite the first message of the list whose role is user, leaving
everything else in place; the source runs this loop over the reversed
message list (rag_api.py lines 86-90). -/
def replaceFirstUser (context : String) : List Message → List Message
  | [] => []
  | m :: ms =>
    if m.role = some "user" then injectMsg context m :: ms
    else m :: replaceFirstUser context ms

/-- The injection loop of the chat endpoint: reversed iteration with a
break at the first user message, i.e. the last user message of the list
is rewritten and no other. -/
def injectLastUser (context : String) (msgs : List Message) : List Message :=
  (replaceFirstUser context msgs.reverse).reverse

/-- The augmentation step of the chat endpoint (rag_api.py lines 70-90):
messages default to the empty list, the last user content is the query,
an empty query or falsy context leaves the request untouched, otherwise
the last user message is rewritten. -/
def chatAugment (T : UTables) (env : Env) (data : Req) : Req :=
  let messages := data.messages.getD []
  let prompt_for_rag := lastUserContent messages
  if prompt_for_rag = "" then data
  else
    match get_rag_context T env prompt_for_rag with
    | some context =>
      if context = "" then data
      else { data with messages := some (injectLastUser context messages) }
    | none => data

/-- The body rag_api.py forwards upstream, per route: generate and chat
run the augmentation, the generic passthrough (lines 111-128) forwards
request.json unchanged. -/
def forwardBody (T : UTables) (env : Env) : RoutePath → Req → Req
  | .generate, d => generateAugment T env d
  | .chat, d => chatAugment T env d
  | .api _, d => d

/-- How the generate endpoint answers its caller in terms of the upstream
response (rag_api.py lines 64-65): it returns resp.json() with no status,
which the framework serves as HTTP 200; there is no try-block, so an
unparseable body raises and becomes the 500 internal error of the framework. -/
def generateRespond (up : UpstreamResp) : Nat × BodyOut :=
  match up.jsonBody with
  | some s => (200, .relayed s)
  | none => (500, .internalError)

/-- The health endpoint of rag_api.py lines 130-136: any reply from the
tags query, whatever its status code, yields 200 ok; only a raised
exception yields 500 error.  The argument is the tags-query outcome,
some st for a reply with status st, none for a transport error. -/
def health (tags : Option Nat) : Nat × HealthBody :=
  match tags with
  | some _ => (200, .ok)
  | none => (500, .err)

end RagApi

namespace Injector

/-- The vector-search request body injector.py issues (lines 58-67):
the given limit, with_payload true, and score_threshold 0.3. -/
def searchReq (vec : List Rat) (limit : Nat) : SearchReq :=
  { vector := vec, limit := limit, score_threshold := some (mkRat 3 10), with_payload := true }

/-- search_context from injector.py lines 41-86: the raw query text goes
to the embedding service, failures at any step return the empty list,
otherwise the content payloads of the hits in response order. -/
def search_context (env : Env) (query : String) (limit : Nat) : List String :=
  match env.embed query with
  | none => []
  | some (st, vec) =>
    if st ≠ 200 then []
    else
      match env.search (searchReq vec limit) with
      | none => []
      | some (st2, hits) =>
        if st2 ≠ 200 then []
        else hits.filterMap SearchHit.content

/-- Whether the first list is an initial segment of the second. -/
def leadsWith : List Char → List Char → Bool
  | [], _ => true
  | _ :: _, [] => false
  | a :: as, b :: bs => a == b && leadsWith as bs

/-- The Python membership test of one string in another: the needle
occurs contiguously somewhere in the hay. -/
def occursIn (needle : List Char) : List Char → Bool
  | [] => needle.isEmpty
  | c :: rest => leadsWith needle (c :: rest) || occursIn needle rest

/-- The keyword list of the weather gate (injector.py lines 92-94). -/
def weather_keywords : List String :=
  ["tiempo", "weather", "temperatura", "climate", "climático",
   "madrid", "barcelona", "valencia", "españa", "spain",
   "lluvia", "rain", "nublado", "cloudy", "soleado", "sunny"]

/-- The relevance gate of inject_context (injector.py lines 96-97): any
keyword occurring in the lowercased prompt. -/
def isWeatherQuery (T : UTables) (prompt : String) : Bool :=
  weather_keywords.any (fun k => occursIn k.data (lowerChars T prompt.data))

/-- The header line the context block starts with (injector.py line 109). -/
def contextHeader : String := "INFORMACIÓN RELEVANTE:\n\n"

/-- inject_context from injector.py lines 88-123: non-weather prompts and
empty retrievals pass through; otherwise the context block is the header,
each document followed by a blank line, the delimiter, and the prompt
appended after the fixed question lead-in.  search_context is called with
its default limit, which is 2. -/
def inject_context (T : UTables) (env : Env) (prompt : String) : String :=
  if isWeatherQuery T prompt = false then prompt
  else
    let documents := search_context env prompt 2
    if documents = [] then prompt
    else
      let context := (documents.foldl (fun acc doc => acc ++ (doc ++ "\n\n")) contextHeader) ++ "---\n\n"
      context ++ ("Basándote en la información anterior, responde: " ++ prompt)

/-- process_request from injector.py lines 125-139: only a request whose
stream key is literally false is considered, and only when its prompt is
truthy; then the prompt key is overwritten with the injected prompt. -/
def process_request (T : UTables) (env : Env) (data : Req) : Req :=
  if data.stream = some false then
    let prompt := data.prompt.getD ""
    if prompt ≠ "" then { data with prompt := some (inject_context T env prompt) }
    else data
  else data

/-- process_request together with its effect on the caller: the source
writes the prompt key of its argument dict in place and returns that same
dict, so after the call the object owned by the caller holds exactly the returned
value.  First component: the returned dict; second component: the
request object of the caller after the call. -/
def process_request_effect (T : UTables) (env : Env) (data : Req) : Req × Req :=
  let r := process_request T env data
  (r, r)

/-- The body injector.py forwards upstream, per route: only the generate
route runs process_request; there is no chat route, so chat requests fall
to the generic passthrough (lines 179-198) and are forwarded unchanged. -/
def forwardBody (T : UTables) (env : Env) : RoutePath → Req → Req
  | .generate, d => process_request T env d
  | _, d => d

/-- How the generate endpoint answers its caller in buffered mode, in
terms of the upstream response (injector.py line 172 and the except
branch at lines 174-176): a parseable body is relayed with the original
status code; a body whose parsing raises falls into the except branch,
which answers 500 with a JSON error envelope. -/
def bufferedRespond (up : UpstreamResp) : Nat × BodyOut :=
  match up.jsonBody with
  | some s => (up.status, .relayed s)
  | none => (500, .errorEnvelope)

/-- The health endpoint of injector.py lines 201-211: 200 ok exactly for
a tags reply with status 200, otherwise 500 error. -/
def health (tags : Option Nat) : Nat × HealthBody :=
  match tags with
  | some st => if st = 200 then (200, .ok) else (500, .err)
  | none => (500, .err)

end Injector

/-! ## Concrete fixtures used by witnesses and counterexamples -/

/-- A small concrete instance of the standard-library character tables:
one uppercase accented letter per table (A-circumflex and O-acute), their
canonical decompositions, and the two combining marks as category Mn;
every other character maps to itself, as the real tables do outside the
accented range. -/
def sampleTables : UTables :=
  { lower := fun c => if c = 'Â' then ['â'] else if c = 'Ó' then ['ó'] else [c]
    decomp := fun c => if c = 'â' then ['a', '̂'] else if c = 'ó' then ['o', '́'] else [c]
    isMn := fun c => c == '̂' || c == '́' }

/-- Services that answer every embedding call and every search call
successfully, the search returning one document at score four fifths. -/
def envOneDoc : Env :=
  { embed := fun _ => some (200, [1])
    search := fun _ => some (200, [{ content := some "Madrid: 22 grados, cielos despejados", score := mkRat 4 5 }]) }

/-- Services whose search returns two documents in descending score
order, four fifths then one half. -/
def envTwoDocs : Env :=
  { embed := fun _ => some (200, [1])
    search := fun _ => some (200,
      [{ content := some "doc uno", score := mkRat 4 5 },
       { content := some "doc dos", score := mkRat 1 2 }]) }

/-- Services whose embedding call always raises a transport error. -/
def envNoEmbed : Env :=
  { embed := fun _ => none
    search := fun _ => some (200, []) }

/-- Services whose embedding succeeds but whose vector search always
raises a transport error. -/
def envSearchFail : Env :=
  { embed := fun _ => some (200, [1])
    search := fun _ => none }

/-- An index that returns a document scoring one tenth when the search
request carries no score_threshold, and nothing when one is present:
exactly what a threshold-honoring index may do. -/
def envLowScore : Env :=
  { embed := fun _ => some (200, [1])
    search := fun req =>
      if req.score_threshold = none then
        some (200, [{ content := some "low relevance text", score := mkRat 1 10 }])
      else some (200, []) }

/-- An index that honors the requested score_threshold: it only answers
with its single document, which scores four fifths, when the requested
threshold admits that score. -/
def envHonest : Env :=
  { embed := fun _ => some (200, [1])
    search := fun req =>
      match req.score_threshold with
      | none => some (200, [])
      | some t => if t ≤ mkRat 4 5 then some (200, [{ content := some "Madrid: 22 grados", score := mkRat 4 5 }]) else some (200, []) }

/-- A single-shot weather request with the stream key absent. -/
def reqWeatherNoStream : Req :=
  { prompt := some "weather madrid", messages := none, stream := none, rest := [("model", "llama2")] }

/-- A single-shot weather request with stream explicitly false. -/
def reqWeatherBuffered : Req :=
  { prompt := some "weather madrid", messages := none, stream := some false, rest := [("model", "llama2")] }

/-! ## Derived observation definitions used by the theorems -/

/-- The string the context-building loop of inject_context accumulates
over the document list: each document followed by a blank line. -/
def concatDocs : List String → String
  | [] => ""
  | d :: ds => d ++ "\n\n" ++ concatDocs ds

/-- The given strings occur in the text, contiguously and in the given
order. -/
def containsInOrder : String → List String → Prop
  | _, [] => True
  | s, d :: ds => ∃ pre suf, s = pre ++ d ++ suf ∧ containsInOrder suf ds

/-- What the blank-line join of rag_api appends after its first
document: each further document preceded by a blank line. -/
def sepDocs : List String → String
  | [] => ""
  | d :: ds => "\n\n" ++ d ++ sepDocs ds

/-- An index service that honors the score_threshold field of the search
requests it answers: every returned hit scores at least the requested
threshold.  This is the documented contract of the index backend. -/
def HonestEnv (env : Env) : Prop :=
  ∀ req st hits h t, env.search req = some (st, hits) → h ∈ hits →
    req.score_threshold = some t → t ≤ h.score

/-! ## C10 -/

/-- C10: for every tuple of string parts, hash_id returns an integer in
the half-open range below 2 to the 31 (non-negative by construction: the
value is a natural number, as the Python mod of a non-negative int by a
positive int is non-negative), and it is deterministic: equal part lists
produce equal ids, for any hex digest function the hash library
implements. -/
theorem c10_hash_id_range_and_deterministic (md5hex : String → String) (parts parts2 : List String) :
    Indexer.hash_id md5hex parts < 2 ^ 31 ∧
    (parts = parts2 → Indexer.hash_id md5hex parts = Indexer.hash_id md5hex parts2) := by
  refine ⟨Nat.mod_lt _ (by norm_num), ?_⟩
  intro h
  rw [h]

/-- Witness for C10 at a concrete digest function and part tuple. -/
theorem c10_hash_id_witness :
    Indexer.hash_id (fun _ => "00ffa3") ["doc", "chunk1"] < 2 ^ 31 ∧
    Indexer.hash_id (fun _ => "00ffa3") ["doc", "chunk1"] =
      Indexer.hash_id (fun _ => "00ffa3") ["doc", "chunk1"] :=
  ⟨(c10_hash_id_range_and_deterministic (fun _ => "00ffa3") ["doc", "chunk1"] ["doc", "chunk1"]).1,
   (c10_hash_id_range_and_deterministic (fun _ => "00ffa3") ["doc", "chunk1"] ["doc", "chunk1"]).2 rfl⟩

/-! ## C8 -/

/-- C8 counterexample: with the backend reachable but its tags query
answering HTTP 500 (the query failed), the rag_api health endpoint
answers 200 with body ok, although the claim requires 500 with body
error whenever the backend query fails. -/
theorem c8_health_counterexample :
    RagApi.health (some 500) = (200, HealthBody.ok) ∧ (500 : Nat) ≠ 200 :=
  ⟨rfl, by decide⟩

/-- C8 amended: the injector health endpoint answers 200 ok exactly when
the tags query returns status 200 and 500 error otherwise, while the
rag_api health endpoint answers 200 ok whenever the tags request
completes without raising, whatever the status code, and 500 error only
on a raised transport error. -/
theorem c8_health_amended (t : Option Nat) :
    Injector.health t = (if t = some 200 then (200, HealthBody.ok) else (500, HealthBody.err)) ∧
    RagApi.health t = (if t.isSome then (200, HealthBody.ok) else (500, HealthBody.err)) := by
  constructor
  · cases t with
    | none => rfl
    | some st =>
      by_cases h : st = 200 <;> simp [Injector.health, h]
  · cases t <;> rfl

/-! ## C2 -/

/-- C2 counterexample: in buffered mode, an upstream 404 with a parseable
body is answered by the rag_api generate endpoint with status 200 — the
upstream error status is converted to a success status, contradicting the
claim that the original status code is always relayed. -/
theorem c2_buffered_error_counterexample :
    (400 : Nat) ≤ (UpstreamResp.mk 404 (some "model not found")).status ∧
    RagApi.generateRespond (UpstreamResp.mk 404 (some "model not found")) =
      (200, BodyOut.relayed "model not found") ∧
    (200 : Nat) < 400 :=
  ⟨by decide, rfl, by decide⟩

/-- C2 amended: in buffered mode in the injector proxy, every upstream
response with status at least 400 is answered with an error status: the
original status code and body when the body parses, and a 500 JSON error
envelope when it does not; an upstream error status is never returned as
a success status.  (The rag_api proxy does not relay upstream statuses in
buffered mode, per the counterexample.) -/
theorem c2_buffered_error_relay_amended (up : UpstreamResp) (h : 400 ≤ up.status) :
    400 ≤ (Injector.bufferedRespond up).1 ∧
    (∀ s, up.jsonBody = some s → Injector.bufferedRespond up = (up.status, BodyOut.relayed s)) ∧
    (up.jsonBody = none → Injector.bufferedRespond up = (500, BodyOut.errorEnvelope)) := by
  cases up with
  | mk st body =>
    cases body with
    | some s =>
      refine ⟨h, ?_, ?_⟩
      · intro s2 hs
        cases hs
        rfl
      · intro hnone
        cases hnone
    | none =>
      refine ⟨by norm_num [Injector.bufferedRespond], ?_, fun _ => rfl⟩
      intro s2 hs
      cases hs

/-- Witness for C2 at a concrete upstream error response. -/
theorem c2_buffered_error_relay_witness :
    (400 : Nat) ≤ 404 ∧
    Injector.bufferedRespond (UpstreamResp.mk 404 (some "boom")) = (404, BodyOut.relayed "boom") :=
  ⟨by decide,
   (c2_buffered_error_relay_amended (UpstreamResp.mk 404 (some "boom")) (by decide)).2.1 "boom" rfl⟩

/-! ## C1 -/

/-- A failing embedding call makes get_rag_context return none. -/
theorem ragGetContext_none_of_embed_fails (T : UTables) (env : Env) (q : String)
    (h : CallFails (env.embed (normalizeQuery T q))) :
    RagApi.get_rag_context T env q = none := by
  unfold RagApi.get_rag_context
  rcases h with h | ⟨st, x, hx, hst⟩
  · rw [h]
  · rw [hx]
    simp [hst]

/-- A failing vector-search call makes get_rag_context return none. -/
theorem ragGetContext_none_of_search_fails (T : UTables) (env : Env) (q : String)
    (st : Nat) (vec : List Rat)
    (he : env.embed (normalizeQuery T q) = some (st, vec))
    (h : CallFails (env.search (RagApi.searchReq vec))) :
    RagApi.get_rag_context T env q = none := by
  unfold RagApi.get_rag_context
  rw [he]
  by_cases hst : st = 200
  · subst hst
    rcases h with h | ⟨st2, x, hx, hst2⟩
    · simp [h]
    · simp [hx, hst2]
  · simp [hst]

/-- When get_rag_context yields no context, the generate augmentation is
the identity. -/
theorem ragGenerateAugment_id_of_none (T : UTables) (env : Env) (d : Req)
    (h : RagApi.get_rag_context T env (d.prompt.getD "") = none) :
    RagApi.generateAugment T env d = d := by
  simp only [RagApi.generateAugment, h]

/-- When get_rag_context yields no context, the chat augmentation is the
identity. -/
theorem ragChatAugment_id_of_none (T : UTables) (env : Env) (d : Req)
    (h : RagApi.get_rag_context T env (RagApi.lastUserContent (d.messages.getD [])) = none) :
    RagApi.chatAugment T env d = d := by
  simp only [RagApi.chatAugment, h]
  split <;> rfl

/-- A failing embedding call makes search_context return the empty list. -/
theorem search_context_nil_of_embed_fails (env : Env) (q : String) (limit : Nat)
    (h : CallFails (env.embed q)) :
    Injector.search_context env q limit = [] := by
  unfold Injector.search_context
  rcases h with h | ⟨st, x, hx, hst⟩
  · rw [h]
  · rw [hx]
    simp [hst]

/-- A failing vector-search call makes search_context return the empty
list. -/
theorem search_context_nil_of_search_fails (env : Env) (q : String) (limit : Nat)
    (st : Nat) (vec : List Rat)
    (he : env.embed q = some (st, vec))
    (h : CallFails (env.search (Injector.searchReq vec limit))) :
    Injector.search_context env q limit = [] := by
  unfold Injector.search_context
  rw [he]
  by_cases hst : st = 200
  · subst hst
    rcases h with h | ⟨st2, x, hx, hst2⟩
    · simp [h]
    · simp [hx, hst2]
  · simp [hst]

/-- When search_context finds nothing, inject_context returns the prompt
unchanged. -/
theorem inject_context_id_of_nil (T : UTables) (env : Env) (p : String)
    (h : Injector.search_context env p 2 = []) :
    Injector.inject_context T env p = p := by
  unfold Injector.inject_context
  by_cases hw : Injector.isWeatherQuery T p = false
  · simp [hw]
  · simp [hw, h]

/-- When inject_context leaves every prompt unchanged, process_request is
the identity. -/
theorem process_request_id_of_inject_id (T : UTables) (env : Env) (d : Req)
    (h : ∀ p, d.prompt = some p → Injector.inject_context T env p = p) :
    Injector.process_request T env d = d := by
  cases d with
  | mk pr ms st re =>
    unfold Injector.process_request
    by_cases hs : st = some false
    · simp only [hs]
      cases pr with
      | none => simp
      | some p =>
        by_cases hp : p = ""
        · simp [hp]
        · simp [hp, h p rfl]
    · simp [hs]

/-- C1: whenever the embedding call or the vector-search call fails (a
raised transport error or a non-200 status), each of the three
augmentation paths — the rag_api generate augmentation, the rag_api chat
augmentation, and the injector process_request — returns the request
unchanged; since every path is a total function whose failure branches
are the catch-all except branches of the source, no exception reaches the
caller of the augmentation. -/
theorem c1_augment_unchanged_on_failure (T : UTables) (env : Env) (d : Req) :
    (CallFails (env.embed (normalizeQuery T (d.prompt.getD ""))) →
      RagApi.generateAugment T env d = d) ∧
    (∀ st vec, env.embed (normalizeQuery T (d.prompt.getD "")) = some (st, vec) →
      CallFails (env.search (RagApi.searchReq vec)) →
      RagApi.generateAugment T env d = d) ∧
    (CallFails (env.embed (normalizeQuery T (RagApi.lastUserContent (d.messages.getD [])))) →
      RagApi.chatAugment T env d = d) ∧
    (∀ st vec, env.embed (normalizeQuery T (RagApi.lastUserContent (d.messages.getD []))) = some (st, vec) →
      CallFails (env.search (RagApi.searchReq vec)) →
      RagApi.chatAugment T env d = d) ∧
    (CallFails (env.embed (d.prompt.getD "")) →
      Injector.process_request T env d = d) ∧
    (∀ st vec, env.embed (d.prompt.getD "") = some (st, vec) →
      CallFails (env.search (Injector.searchReq vec 2)) →
      Injector.process_request T env d = d) := by
  refine ⟨?_, ?_, ?_, ?_, ?_, ?_⟩
  · intro h
    exact ragGenerateAugment_id_of_none T env d (ragGetContext_none_of_embed_fails T env _ h)
  · intro st vec he h
    exact ragGenerateAugment_id_of_none T env d
      (ragGetContext_none_of_search_fails T env _ st vec he h)
  · intro h
    exact ragChatAugment_id_of_none T env d (ragGetContext_none_of_embed_fails T env _ h)
  · intro st vec he h
    exact ragChatAugment_id_of_none T env d
      (ragGetContext_none_of_search_fails T env _ st vec he h)
  · intro h
    refine process_request_id_of_inject_id T env d ?_
    intro p hp
    refine inject_context_id_of_nil T env p ?_
    refine search_context_nil_of_embed_fails env p 2 ?_
    rw [← show d.prompt.getD "" = p by rw [hp]; rfl]
    exact h
  · intro st vec he h
    refine process_request_id_of_inject_id T env d ?_
    intro p hp
    refine inject_context_id_of_nil T env p ?_
    refine search_context_nil_of_search_fails env p 2 st vec ?_ h
    rw [show p = d.prompt.getD "" by rw [hp]; rfl]
    exact he

/-- Witness for C1: a transport error at the embedding service leaves a
generate request and a chat request unchanged, and a transport error at
the vector search leaves an injector request unchanged. -/
theorem c1_augment_unchanged_witness :
    RagApi.generateAugment sampleTables envNoEmbed reqWeatherNoStream = reqWeatherNoStream ∧
    RagApi.chatAugment sampleTables envNoEmbed
      { prompt := none, messages := some [{ role := some "user", content := some "weather madrid", rest := [] }],
        stream := none, rest := [] } =
      { prompt := none, messages := some [{ role := some "user", content := some "weather madrid", rest := [] }],
        stream := none, rest := [] } ∧
    Injector.process_request sampleTables envSearchFail reqWeatherBuffered = reqWeatherBuffered :=
  ⟨(c1_augment_unchanged_on_failure sampleTables envNoEmbed reqWeatherNoStream).1 (Or.inl rfl),
   (c1_augment_unchanged_on_failure sampleTables envNoEmbed _).2.2.1 (Or.inl rfl),
   (c1_augment_unchanged_on_failure sampleTables envSearchFail reqWeatherBuffered).2.2.2.2.2
     200 [1] rfl (Or.inl rfl)⟩

/-! ## C7 -/

/-- With no user-role message in the list, the query-extraction loop
yields the empty string. -/
theorem lastUserContent_eq_empty_of_no_user (msgs : List Message)
    (h : ∀ m ∈ msgs, m.role ≠ some "user") :
    RagApi.lastUserContent msgs = "" := by
  unfold RagApi.lastUserContent
  have hfind : msgs.reverse.find? (fun m => m.role == some "user") = none := by
    apply List.find?_eq_none.mpr
    intro x hx
    simp only [beq_iff_eq]
    exact h x (List.mem_reverse.mp hx)
  rw [hfind]

/-- C7 counterexample: a single-shot request with an empty prompt — no
recognizable user query text — is not returned unchanged by the rag_api
generate augmentation when the services return a document: the code calls
retrieval even for the empty prompt and rewrites it, so the claimed
byte-identical pass-through fails there. -/
theorem c7_empty_prompt_counterexample :
    RagApi.generateAugment sampleTables envOneDoc
      { prompt := some "", messages := none, stream := none, rest := [] } ≠
      { prompt := some "", messages := none, stream := none, rest := [] } := by
  decide

/-- C7 amended: the injector process_request returns a request with an
absent or empty prompt unchanged; the rag_api chat augmentation returns
a request unchanged when its messages contain no user-role turn, and
more generally whenever the extracted query text is empty — which covers
a last user-role message whose content is absent or the empty string;
the rag_api generate endpoint, however, consults retrieval even for an
empty prompt and rewrites it when context comes back (see the
counterexample). -/
theorem c7_no_query_passthrough_amended (T : UTables) (env : Env) (d : Req) :
    ((d.prompt = none ∨ d.prompt = some "") → Injector.process_request T env d = d) ∧
    ((∀ m ∈ d.messages.getD [], m.role ≠ some "user") → RagApi.chatAugment T env d = d) ∧
    (RagApi.lastUserContent (d.messages.getD []) = "" → RagApi.chatAugment T env d = d) := by
  have hlast : RagApi.lastUserContent (d.messages.getD []) = "" →
      RagApi.chatAugment T env d = d := by
    intro hq
    unfold RagApi.chatAugment
    simp [hq]
  refine ⟨?_, ?_, hlast⟩
  · intro h
    cases d with
    | mk pr ms st re =>
      unfold Injector.process_request
      by_cases hs : st = some false
      · simp only [hs]
        rcases h with h | h <;> simp_all
      · simp_all
  · intro h
    exact hlast (lastUserContent_eq_empty_of_no_user (d.messages.getD []) h)

/-- Witness for C7: a prompt-less buffered request passes through the
injector unchanged; a chat request with only a system turn, and a chat
request whose last user message has empty content, pass through the
rag_api chat augmentation unchanged. -/
theorem c7_no_query_passthrough_witness :
    Injector.process_request sampleTables envOneDoc
      { prompt := none, messages := none, stream := some false, rest := [] } =
      { prompt := none, messages := none, stream := some false, rest := [] } ∧
    RagApi.chatAugment sampleTables envOneDoc
      { prompt := none, messages := some [{ role := some "system", content := some "hola", rest := [] }],
        stream := none, rest := [] } =
      { prompt := none, messages := some [{ role := some "system", content := some "hola", rest := [] }],
        stream := none, rest := [] } ∧
    RagApi.chatAugment sampleTables envOneDoc
      { prompt := none, messages := some [{ role := some "user", content := some "", rest := [] }],
        stream := none, rest := [] } =
      { prompt := none, messages := some [{ role := some "user", content := some "", rest := [] }],
        stream := none, rest := [] } :=
  ⟨(c7_no_query_passthrough_amended sampleTables envOneDoc _).1 (Or.inl rfl),
   (c7_no_query_passthrough_amended sampleTables envOneDoc _).2.1 (by decide),
   (c7_no_query_passthrough_amended sampleTables envOneDoc _).2.2 (by decide)⟩

/-! ## C6 -/

/-- C6 counterexample: a generate request whose stream key is absent is
forwarded by the injector without running the retrieval policy, although
the policy would have rewritten it — the same services and prompt with
stream false do get rewritten; this contradicts the claim that every
generation request runs through the policy regardless of the stream
field. -/
theorem c6_stream_gate_counterexample :
    Injector.forwardBody sampleTables envOneDoc RoutePath.generate reqWeatherNoStream =
      reqWeatherNoStream ∧
    Injector.inject_context sampleTables envOneDoc "weather madrid" ≠ "weather madrid" := by
  constructor
  · rfl
  · decide

/-- C6 amended: in rag_api, both the generate and chat routes run the
retrieval policy whatever the stream field holds (the rewritten prompt
and messages do not depend on it), and other api paths are forwarded
without augmentation; in the injector, only a generate request whose
stream key is literally false runs the policy — any other stream value,
the chat path, and all other api paths are forwarded unchanged. -/
theorem c6_route_dispatch_amended (T : UTables) (env : Env) (d : Req) :
    (∀ s, (RagApi.generateAugment T env { d with stream := s }).prompt =
      (RagApi.generateAugment T env d).prompt) ∧
    (∀ s, (RagApi.chatAugment T env { d with stream := s }).messages =
      (RagApi.chatAugment T env d).messages) ∧
    (∀ p, RagApi.forwardBody T env (RoutePath.api p) d = d) ∧
    (d.stream ≠ some false → Injector.forwardBody T env RoutePath.generate d = d) ∧
    (∀ q, d.stream = some false → d.prompt = some q → q ≠ "" →
      Injector.forwardBody T env RoutePath.generate d =
        { d with prompt := some (Injector.inject_context T env q) }) ∧
    (Injector.forwardBody T env RoutePath.chat d = d) ∧
    (∀ p, Injector.forwardBody T env (RoutePath.api p) d = d) := by
  refine ⟨?_, ?_, fun p => rfl, ?_, ?_, rfl, fun p => rfl⟩
  · intro s
    cases d with
    | mk pr ms st re =>
      simp only [RagApi.generateAugment]
      cases h : RagApi.get_rag_context T env (pr.getD "") <;> simp [h]
      split <;> rfl
  · intro s
    cases d with
    | mk pr ms st re =>
      simp only [RagApi.chatAugment]
      split
      · rfl
      · cases h : RagApi.get_rag_context T env (RagApi.lastUserContent (ms.getD [])) <;> simp [h]
        split <;> rfl
  · intro h
    cases d with
    | mk pr ms st re =>
      simp only [Injector.forwardBody, Injector.process_request]
      simp_all
  · intro q h1 h2 h3
    cases d with
    | mk pr ms st re =>
      simp only at h1 h2
      subst h1
      subst h2
      simp only [Injector.forwardBody, Injector.process_request]
      simp [h3]

/-- Witness for C6: with stream false the injector rewrites the weather
request; with stream absent the same request passes through unchanged. -/
theorem c6_route_dispatch_witness :
    Injector.forwardBody sampleTables envOneDoc RoutePath.generate reqWeatherBuffered =
      { reqWeatherBuffered with
        prompt := some (Injector.inject_context sampleTables envOneDoc "weather madrid") } ∧
    Injector.forwardBody sampleTables envOneDoc RoutePath.generate reqWeatherNoStream =
      reqWeatherNoStream :=
  ⟨(c6_route_dispatch_amended sampleTables envOneDoc reqWeatherBuffered).2.2.2.2.1
      "weather madrid" rfl rfl (by decide),
   (c6_route_dispatch_amended sampleTables envOneDoc reqWeatherNoStream).2.2.2.1 (by decide)⟩

/-! ## C5 -/

/-- C5 counterexample: the vector-search request rag_api issues carries
no score_threshold at all, and with an index that (legitimately) returns
a document scoring one tenth to an unthresholded search, that document —
below the default threshold of three tenths — is used as augmentation
context by rag_api; this contradicts the claim that every search request
of the proxy filters by the minimum score threshold. -/
theorem c5_threshold_counterexample :
    (RagApi.searchReq [1]).score_threshold = none ∧
    RagApi.get_rag_context sampleTables envLowScore "best paella" = some "low relevance text" ∧
    (mkRat 1 10 < mkRat 3 10) :=
  ⟨rfl, by decide, by decide⟩

/-- C5 amended: the injector search requests carry the configured limit
and score_threshold three tenths, so — against an index that honors the
threshold field — every document the injector retrieves comes from a hit
scoring at least three tenths; the rag_api search requests carry limit 2
but no score_threshold, so rag_api may use documents of arbitrary
score. -/
theorem c5_threshold_amended (env : Env) (henv : HonestEnv env) (q : String) (limit : Nat) :
    (∀ vec, (Injector.searchReq vec limit).limit = limit ∧
      (Injector.searchReq vec limit).score_threshold = some (mkRat 3 10)) ∧
    (∀ vec, (RagApi.searchReq vec).limit = 2 ∧ (RagApi.searchReq vec).score_threshold = none) ∧
    (∀ doc, doc ∈ Injector.search_context env q limit →
      ∃ vec st hits, env.search (Injector.searchReq vec limit) = some (st, hits) ∧
        ∃ h, h ∈ hits ∧ h.content = some doc ∧ mkRat 3 10 ≤ h.score) := by
  refine ⟨fun vec => ⟨rfl, rfl⟩, fun vec => ⟨rfl, rfl⟩, ?_⟩
  intro doc hdoc
  unfold Injector.search_context at hdoc
  cases hemb : env.embed q with
  | none => rw [hemb] at hdoc; simp at hdoc
  | some pair =>
    obtain ⟨st0, vec⟩ := pair
    rw [hemb] at hdoc
    by_cases hst : st0 = 200
    · subst hst
      simp only [ne_eq, not_true_eq_false, if_false, ite_false, reduceIte] at hdoc
      cases hsearch : env.search (Injector.searchReq vec limit) with
      | none => rw [hsearch] at hdoc; simp at hdoc
      | some pair2 =>
        obtain ⟨st2, hits⟩ := pair2
        rw [hsearch] at hdoc
        by_cases hst2 : st2 = 200
        · subst hst2
          simp only [ne_eq, not_true_eq_false, if_false, ite_false, reduceIte] at hdoc
          obtain ⟨h, hmem, hcont⟩ := List.mem_filterMap.mp hdoc
          exact ⟨vec, 200, hits, hsearch, h, hmem, hcont,
            henv (Injector.searchReq vec limit) 200 hits h (mkRat 3 10) hsearch hmem rfl⟩
        · simp [hst2] at hdoc
    · simp [hst] at hdoc

/-- The concrete fixture index honors the threshold field. -/
theorem envHonest_honest : HonestEnv envHonest := by
  intro req st hits h t hs hm ht
  unfold envHonest at hs
  dsimp only at hs
  rw [ht] at hs
  dsimp only at hs
  by_cases hle : t ≤ mkRat 4 5
  · rw [if_pos hle] at hs
    cases hs
    simp at hm
    rw [hm]
    exact hle
  · rw [if_neg hle] at hs
    cases hs
    simp at hm

/-- Witness for C5: against the honoring index, the document the injector
uses comes from a hit scoring four fifths, at or above the requested
threshold of three tenths. -/
theorem c5_threshold_witness :
    "Madrid: 22 grados" ∈ Injector.search_context envHonest "weather madrid" 2 ∧
    (∃ vec st hits, envHonest.search (Injector.searchReq vec 2) = some (st, hits) ∧
      ∃ h, h ∈ hits ∧ h.content = some "Madrid: 22 grados" ∧ mkRat 3 10 ≤ h.score) :=
  ⟨by decide,
   (c5_threshold_amended envHonest envHonest_honest "weather madrid" 2).2.2
     "Madrid: 22 grados" (by decide)⟩

/-! ## C3 -/

/-- Either no message has role user and the replacement loop changes
nothing, or the list splits around the first user message, which is the
only one rewritten. -/
theorem replaceFirstUser_shape (context : String) (l : List Message) :
    RagApi.replaceFirstUser context l = l ∨
    ∃ pre m suf, l = pre ++ m :: suf ∧ (∀ x ∈ pre, x.role ≠ some "user") ∧
      m.role = some "user" ∧
      RagApi.replaceFirstUser context l = pre ++ RagApi.injectMsg context m :: suf := by
  induction l with
  | nil => exact Or.inl rfl
  | cons m ms ih =>
    by_cases h : m.role = some "user"
    · refine Or.inr ⟨[], m, ms, rfl, ?_, h, ?_⟩
      · intro x hx
        simp at hx
      · simp [RagApi.replaceFirstUser, h]
    · rcases ih with h1 | ⟨pre, mm, suf, hl, hpre, hmm, hr⟩
      · refine Or.inl ?_
        simp [RagApi.replaceFirstUser, h, h1]
      · refine Or.inr ⟨m :: pre, mm, suf, ?_, ?_, hmm, ?_⟩
        · rw [hl]
          rfl
        · intro x hx
          rcases List.mem_cons.mp hx with hx1 | hx2
          · rw [hx1]
            exact h
          · exact hpre x hx2
        · simp [RagApi.replaceFirstUser, h, hr]

/-- Either the chat injection changes nothing, or the message list splits
around its last user message — no user message follows it — and exactly
that message is rewritten. -/
theorem injectLastUser_shape (context : String) (msgs : List Message) :
    RagApi.injectLastUser context msgs = msgs ∨
    ∃ pre m suf, msgs = pre ++ m :: suf ∧ m.role = some "user" ∧
      (∀ x ∈ suf, x.role ≠ some "user") ∧
      RagApi.injectLastUser context msgs = pre ++ RagApi.injectMsg context m :: suf := by
  rcases replaceFirstUser_shape context msgs.reverse with h | ⟨pre, m, suf, hl, hpre, hm, hr⟩
  · refine Or.inl ?_
    unfold RagApi.injectLastUser
    rw [h, List.reverse_reverse]
  · refine Or.inr ⟨suf.reverse, m, pre.reverse, ?_, hm, ?_, ?_⟩
    · have h2 := congrArg List.reverse hl
      rw [List.reverse_reverse] at h2
      rw [h2]
      simp
    · intro x hx
      exact hpre x (List.mem_reverse.mp hx)
    · unfold RagApi.injectLastUser
      rw [hr]
      simp

/-- C3 counterexample: the injector performs the rewrite by mutating the
request object of the caller in place and returning that same object, so after
a call on which augmentation applies the caller-owned request no longer
equals the request that was passed in — augment does not operate on a
copy. -/
theorem c3_inplace_mutation_counterexample :
    (Injector.process_request_effect sampleTables envOneDoc reqWeatherBuffered).2 ≠
      reqWeatherBuffered := by
  decide

/-- The chat augmentation either leaves the request unchanged or
replaces the messages key with the injected message list, for the context
the retrieval returned on the last user content. -/
theorem chatAugment_cases (T : UTables) (env : Env) (d : Req) :
    RagApi.chatAugment T env d = d ∨
    ∃ context msgs, d.messages = some msgs ∧ context ≠ "" ∧
      RagApi.get_rag_context T env (RagApi.lastUserContent msgs) = some context ∧
      RagApi.chatAugment T env d = { d with messages := some (RagApi.injectLastUser context msgs) } := by
  cases d with
  | mk pr ms st re =>
    cases ms with
    | none =>
      refine Or.inl ?_
      simp [RagApi.chatAugment, RagApi.lastUserContent]
    | some msgs =>
      by_cases hq : RagApi.lastUserContent msgs = ""
      · refine Or.inl ?_
        simp [RagApi.chatAugment, hq]
      · cases h : RagApi.get_rag_context T env (RagApi.lastUserContent msgs) with
        | none =>
          refine Or.inl ?_
          simp [RagApi.chatAugment, hq, h]
        | some context =>
          by_cases hc : context = ""
          · refine Or.inl ?_
            simp [RagApi.chatAugment, hq, h, hc]
          · refine Or.inr ⟨context, msgs, rfl, hc, h, ?_⟩
            simp [RagApi.chatAugment, hq, h, hc]

/-- C3 amended: at the level of values, the frame property the claim
describes does hold — the injector process_request can change only the
prompt key, the rag_api generate augmentation can change only the prompt
key, and the rag_api chat augmentation can change only the content of the
last user-role message, preserving every other key and every other turn —
but the implementations apply that change by mutating the request of
the caller in place rather than returning an independent copy (see the
counterexample). -/
theorem c3_value_frame_amended (T : UTables) (env : Env) (d : Req) :
    ((Injector.process_request T env d).messages = d.messages ∧
     (Injector.process_request T env d).stream = d.stream ∧
     (Injector.process_request T env d).rest = d.rest) ∧
    ((RagApi.generateAugment T env d).messages = d.messages ∧
     (RagApi.generateAugment T env d).stream = d.stream ∧
     (RagApi.generateAugment T env d).rest = d.rest) ∧
    ((RagApi.chatAugment T env d).prompt = d.prompt ∧
     (RagApi.chatAugment T env d).stream = d.stream ∧
     (RagApi.chatAugment T env d).rest = d.rest) ∧
    (RagApi.chatAugment T env d = d ∨
     ∃ context pre m suf, d.messages = some (pre ++ m :: suf) ∧
       m.role = some "user" ∧ (∀ x ∈ suf, x.role ≠ some "user") ∧
       (RagApi.injectMsg context m).role = m.role ∧
       (RagApi.injectMsg context m).rest = m.rest ∧
       RagApi.chatAugment T env d =
         { d with messages := some (pre ++ RagApi.injectMsg context m :: suf) }) := by
  refine ⟨?_, ?_, ?_, ?_⟩
  · cases d with
    | mk pr ms st re =>
      simp only [Injector.process_request]
      split
      · split <;> simp
      · simp
  · cases d with
    | mk pr ms st re =>
      simp only [RagApi.generateAugment]
      cases h : RagApi.get_rag_context T env (pr.getD "") <;> simp [h]
      split <;> simp
  · rcases chatAugment_cases T env d with h | ⟨context, msgs, hms, hc, hget, heq⟩
    · rw [h]
      exact ⟨rfl, rfl, rfl⟩
    · rw [heq]
      exact ⟨rfl, rfl, rfl⟩
  · rcases chatAugment_cases T env d with h | ⟨context, msgs, hms, hc, hget, heq⟩
    · exact Or.inl h
    · rcases injectLastUser_shape context msgs with h1 | ⟨pre, m, suf, hl, hm, hsuf, hr⟩
      · refine Or.inl ?_
        rw [heq, h1, ← hms]
      · refine Or.inr ⟨context, pre, m, suf, ?_, hm, hsuf, rfl, rfl, ?_⟩
        · rw [hms, hl]
        · rw [heq, hr]

/-! ## C4 -/

/-- The accumulating loop of inject_context equals the initial string
followed by the documents each with a trailing blank line. -/
theorem foldl_append_concatDocs (ds : List String) (init : String) :
    List.foldl (fun acc doc => acc ++ (doc ++ "\n\n")) init ds = init ++ concatDocs ds := by
  induction ds generalizing init with
  | nil => simp [concatDocs]
  | cons d ds ih =>
    simp only [List.foldl_cons, concatDocs]
    rw [ih, String.append_assoc]

/-- Any text of the form prefix, documents each followed by a blank line,
suffix contains the documents contiguously and in order. -/
theorem containsInOrder_concatDocs (ds : List String) (pre0 tail : String) :
    containsInOrder (pre0 ++ concatDocs ds ++ tail) ds := by
  induction ds generalizing pre0 tail with
  | nil => trivial
  | cons d ds ih =>
    refine ⟨pre0, "\n\n" ++ concatDocs ds ++ tail, ?_, ih "\n\n" tail⟩
    simp only [concatDocs]
    simp [String.append_assoc]

/-- The success path of search_context: a non-empty result comes from a
successful search reply, as its content payloads in response order. -/
theorem search_context_success (env : Env) (q : String) (limit : Nat)
    (hne : Injector.search_context env q limit ≠ []) :
    ∃ vec st hits, env.search (Injector.searchReq vec limit) = some (st, hits) ∧
      Injector.search_context env q limit = hits.filterMap SearchHit.content := by
  cases hemb : env.embed q with
  | none =>
    exact absurd (search_context_nil_of_embed_fails env q limit (Or.inl hemb)) hne
  | some pair =>
    obtain ⟨st0, vec⟩ := pair
    by_cases hst : st0 = 200
    · subst hst
      cases hsearch : env.search (Injector.searchReq vec limit) with
      | none =>
        exact absurd (search_context_nil_of_search_fails env q limit 200 vec hemb
          (Or.inl hsearch)) hne
      | some pair2 =>
        obtain ⟨st2, hits⟩ := pair2
        by_cases hst2 : st2 = 200
        · subst hst2
          refine ⟨vec, 200, hits, hsearch, ?_⟩
          unfold Injector.search_context
          rw [hemb]
          simp [hsearch]
        · exact absurd (search_context_nil_of_search_fails env q limit 200 vec hemb
            (Or.inr ⟨st2, hits, hsearch, hst2⟩)) hne
    · exact absurd (search_context_nil_of_embed_fails env q limit
        (Or.inr ⟨st0, vec, hemb, hst⟩)) hne

/-- The accumulator of the blank-line join: the accumulated string
followed by each remaining document preceded by a blank line. -/
theorem intercalate_go_blank : ∀ (as : List String) (acc : String),
    String.intercalate.go acc "\n\n" as = acc ++ sepDocs as := by
  intro as
  induction as with
  | nil =>
    intro acc
    simp only [String.intercalate.go, sepDocs]
    rw [String.append_empty]
  | cons a as ih =>
    intro acc
    simp only [String.intercalate.go, sepDocs]
    rw [ih]
    simp [String.append_assoc]

/-- The blank-line join of a non-empty document list is its head followed
by each further document preceded by a blank line. -/
theorem intercalate_blank_cons (d : String) (ds : List String) :
    String.intercalate "\n\n" (d :: ds) = d ++ sepDocs ds := by
  simp only [String.intercalate]
  exact intercalate_go_blank ds d

/-- The tail of a blank-line join contains its documents contiguously and
in order, whatever follows it. -/
theorem containsInOrder_sepDocs : ∀ (ds : List String) (tail : String),
    containsInOrder (sepDocs ds ++ tail) ds := by
  intro ds
  induction ds with
  | nil => intro tail; trivial
  | cons d ds ih =>
    intro tail
    refine ⟨"\n\n", sepDocs ds ++ tail, ?_, ih tail⟩
    simp only [sepDocs]
    simp [String.append_assoc]

/-- The rag_api prompt built over a blank-line-joined document list
contains every document, contiguously and in order. -/
theorem containsInOrder_buildPrompt (d : String) (ds : List String) (q : String) :
    containsInOrder (RagApi.buildPrompt (d ++ sepDocs ds) q) (d :: ds) := by
  refine ⟨"INFORMACION:\n",
    sepDocs ds ++ ("\n\n---\n\nBasandote en la informacion anterior:\n" ++ q), ?_,
    containsInOrder_sepDocs ds _⟩
  unfold RagApi.buildPrompt
  simp [String.append_assoc]

/-- The success path of get_rag_context: a returned context comes from a
successful search reply and is the blank-line join of its non-empty
content payloads, in response order. -/
theorem get_rag_context_success (T : UTables) (env : Env) (q ctx : String)
    (h : RagApi.get_rag_context T env q = some ctx) :
    ∃ vec st hits, env.search (RagApi.searchReq vec) = some (st, hits) ∧
      hits.filterMap SearchHit.content ≠ [] ∧
      ctx = String.intercalate "\n\n" (hits.filterMap SearchHit.content) := by
  unfold RagApi.get_rag_context at h
  cases hemb : env.embed (normalizeQuery T q) with
  | none => rw [hemb] at h; simp at h
  | some pair =>
    obtain ⟨st0, vec⟩ := pair
    rw [hemb] at h
    by_cases hst : st0 = 200
    · subst hst
      simp only [ne_eq, not_true_eq_false, if_false, ite_false, reduceIte] at h
      cases hsearch : env.search (RagApi.searchReq vec) with
      | none => rw [hsearch] at h; simp at h
      | some pair2 =>
        obtain ⟨st2, hits⟩ := pair2
        rw [hsearch] at h
        by_cases hst2 : st2 = 200
        · subst hst2
          simp only [ne_eq, not_true_eq_false, if_false, ite_false, reduceIte] at h
          by_cases hnil : hits.filterMap SearchHit.content = []
          · rw [if_pos hnil] at h
            exact Option.noConfusion h
          · rw [if_neg hnil] at h
            refine ⟨vec, 200, hits, hsearch, hnil, ?_⟩
            injection h with h2
            exact h2.symm
        · simp [hst2] at h
    · simp [hst] at h

/-- C4: when the weather gate passes and retrieval returns at least one
document, the rewritten text is exactly the header, every returned
document in response order each followed by a blank line, the fixed
delimiter, and the fixed question lead-in followed by the original
prompt verbatim; the documents therefore occur in the text in order, and
under an index replying in descending score order that order is
descending by score.  On the rag_api generate path the same holds: a
returned context is the blank-line join of the hit contents in response
order, so the rewritten prompt contains every returned document in that
(descending) order after the header, followed by the fixed delimiter and
the original question verbatim at the end. -/
theorem c4_rewritten_text_structure (T : UTables) (env : Env) (prompt : String)
    (hw : Injector.isWeatherQuery T prompt = true)
    (hsorted : ∀ req st hits, env.search req = some (st, hits) →
      List.Chain' (fun a b => b.score ≤ a.score) hits)
    (hne : Injector.search_context env prompt 2 ≠ []) :
    Injector.inject_context T env prompt =
      Injector.contextHeader ++ concatDocs (Injector.search_context env prompt 2) ++ "---\n\n" ++
        ("Basándote en la información anterior, responde: " ++ prompt) ∧
    containsInOrder (Injector.inject_context T env prompt)
      (Injector.search_context env prompt 2) ∧
    (∃ pre, Injector.inject_context T env prompt = pre ++ prompt) ∧
    (∃ vec st hits, env.search (Injector.searchReq vec 2) = some (st, hits) ∧
      Injector.search_context env prompt 2 = hits.filterMap SearchHit.content ∧
      List.Chain' (fun a b => b.score ≤ a.score) hits) ∧
    (∀ context q, RagApi.buildPrompt context q =
      "INFORMACION:\n" ++ context ++ "\n\n---\n\nBasandote en la informacion anterior:\n" ++ q ∧
      ∃ pre2, RagApi.buildPrompt context q = pre2 ++ q) ∧
    (∀ env2 q ctx, RagApi.get_rag_context T env2 q = some ctx →
      ∃ vec st hits, env2.search (RagApi.searchReq vec) = some (st, hits) ∧
        hits.filterMap SearchHit.content ≠ [] ∧
        ctx = String.intercalate "\n\n" (hits.filterMap SearchHit.content) ∧
        containsInOrder (RagApi.buildPrompt ctx q) (hits.filterMap SearchHit.content) ∧
        ((∀ req st2 hits2, env2.search req = some (st2, hits2) →
            List.Chain' (fun a b => b.score ≤ a.score) hits2) →
          List.Chain' (fun a b => b.score ≤ a.score) hits)) ∧
    (∀ env2 d2 ctx, RagApi.get_rag_context T env2 (d2.prompt.getD "") = some ctx → ctx ≠ "" →
      (RagApi.generateAugment T env2 d2).prompt =
        some (RagApi.buildPrompt ctx (d2.prompt.getD ""))) := by
  have hform : Injector.inject_context T env prompt =
      Injector.contextHeader ++ concatDocs (Injector.search_context env prompt 2) ++ "---\n\n" ++
        ("Basándote en la información anterior, responde: " ++ prompt) := by
    unfold Injector.inject_context
    rw [hw]
    simp only [Bool.true_eq_false, if_false, ite_false, reduceIte]
    rw [if_neg hne]
    rw [foldl_append_concatDocs]
  refine ⟨hform, ?_, ?_, ?_, ?_, ?_, ?_⟩
  · rw [hform, String.append_assoc]
    exact containsInOrder_concatDocs _ _ _
  · refine ⟨Injector.contextHeader ++ concatDocs (Injector.search_context env prompt 2) ++
      "---\n\n" ++ "Basándote en la información anterior, responde: ", ?_⟩
    rw [hform, ← String.append_assoc]
  · obtain ⟨vec, st, hits, hsearch, heq⟩ := search_context_success env prompt 2 hne
    exact ⟨vec, st, hits, hsearch, heq, hsorted _ _ _ hsearch⟩
  · intro context q
    exact ⟨rfl, "INFORMACION:\n" ++ context ++ "\n\n---\n\nBasandote en la informacion anterior:\n", rfl⟩
  · intro env2 q ctx h
    obtain ⟨vec, st, hits, hsearch, hnil, hctx⟩ := get_rag_context_success T env2 q ctx h
    refine ⟨vec, st, hits, hsearch, hnil, hctx, ?_, fun hs2 => hs2 _ _ _ hsearch⟩
    cases hd : hits.filterMap SearchHit.content with
    | nil => exact absurd hd hnil
    | cons d ds =>
      rw [hctx, hd, intercalate_blank_cons]
      exact containsInOrder_buildPrompt d ds q
  · intro env2 d2 ctx h hc
    cases d2 with
    | mk pr ms st re =>
      simp only at h
      simp [RagApi.generateAugment, h, hc]

/-- The fixture index with two documents answers every search in
descending score order. -/
theorem envTwoDocs_sorted : ∀ req st hits, envTwoDocs.search req = some (st, hits) →
    List.Chain' (fun a b => b.score ≤ a.score) hits := by
  intro req st hits h
  unfold envTwoDocs at h
  dsimp only at h
  cases h
  refine List.chain'_cons.mpr ⟨by decide, ?_⟩
  simp

/-- Witness for C4 at concrete services returning two documents, on both
paths: the injector rewritten text has the proven closed form, and the
rag_api context is the blank-line join of the two documents, whose built
prompt contains both in order and is installed by the generate
augmentation. -/
theorem c4_rewritten_text_witness :
    Injector.search_context envTwoDocs "weather madrid" 2 ≠ [] ∧
    Injector.inject_context sampleTables envTwoDocs "weather madrid" =
      Injector.contextHeader ++ concatDocs (Injector.search_context envTwoDocs "weather madrid" 2) ++
        "---\n\n" ++ ("Basándote en la información anterior, responde: " ++ "weather madrid") ∧
    RagApi.get_rag_context sampleTables envTwoDocs "weather madrid" =
      some "doc uno\n\ndoc dos" ∧
    containsInOrder (RagApi.buildPrompt "doc uno\n\ndoc dos" "weather madrid")
      ["doc uno", "doc dos"] ∧
    (RagApi.generateAugment sampleTables envTwoDocs reqWeatherNoStream).prompt =
      some (RagApi.buildPrompt "doc uno\n\ndoc dos" "weather madrid") := by
  have hthm := c4_rewritten_text_structure sampleTables envTwoDocs "weather madrid"
    (by decide) envTwoDocs_sorted (by decide)
  refine ⟨by decide, hthm.1, by decide, ?_, ?_⟩
  · obtain ⟨vec, st, hits, hsearch, hnil, hctx, hcont, -⟩ :=
      hthm.2.2.2.2.2.1 envTwoDocs "weather madrid" "doc uno\n\ndoc dos" (by decide)
    simp only [envTwoDocs] at hsearch
    cases hsearch
    have hfm : List.filterMap SearchHit.content
        [{ content := some "doc uno", score := mkRat 4 5 },
         { content := some "doc dos", score := mkRat 1 2 }] = ["doc uno", "doc dos"] := by
      decide
    rw [hfm] at hcont
    exact hcont
  · exact hthm.2.2.2.2.2.2 envTwoDocs reqWeatherNoStream "doc uno\n\ndoc dos"
      (by decide) (by decide)

/-! ## C9 -/

/-- A flatMap whose function fixes every element of the list is the
identity on it. -/
theorem flatMap_id_of_single {α : Type} (f : α → List α) :
    ∀ l : List α, (∀ c ∈ l, f c = [c]) → l.flatMap f = l := by
  intro l h
  induction l with
  | nil => rfl
  | cons a l ih =>
    rw [List.flatMap_cons, h a (List.mem_cons_self a l), ih (fun c hc => h c (List.mem_cons_of_mem a hc))]
    rfl

/-- The mojibake replacement is the identity on any text free of the
leading character of the replaced sequence. -/
theorem replaceMojibake_eq_self : ∀ l : List Char, 'Â' ∉ l → replaceMojibake l = l
  | [], _ => rfl
  | [c], _ => rfl
  | c1 :: c2 :: rest, h => by
    have h1 : c1 ≠ 'Â' := by
      intro hc
      exact h (hc ▸ List.mem_cons_self c1 (c2 :: rest))
    have h2 : 'Â' ∉ c2 :: rest := fun hm => h (List.mem_cons_of_mem c1 hm)
    simp only [replaceMojibake]
    rw [if_neg (fun hand => h1 hand.1)]
    rw [replaceMojibake_eq_self (c2 :: rest) h2]

/-- Every character surviving the lower, decompose, strip-marks pipeline
arises from decomposing a lowercase image of an input character, and is
not a mark. -/
theorem mem_normStage (T : UTables) (l : List Char) (c : Char)
    (hc : c ∈ stripMarks T (nfdChars T (lowerChars T l))) :
    ∃ b d, b ∈ l ∧ d ∈ T.lower b ∧ c ∈ T.decomp d ∧ T.isMn c = false := by
  unfold stripMarks nfdChars lowerChars at hc
  rw [List.mem_filter] at hc
  obtain ⟨hc1, hc2⟩ := hc
  rw [List.mem_flatMap] at hc1
  obtain ⟨d, hd1, hd2⟩ := hc1
  rw [List.mem_flatMap] at hd1
  obtain ⟨b, hb1, hb2⟩ := hd1
  refine ⟨b, d, hb1, hb2, hd2, ?_⟩
  simpa using hc2

/-- Under the stability properties of the real character tables, the
pipeline output is a fixed point of the whole normalization. -/
theorem normStage_fixed (T : UTables)
    (Hd : ∀ c d, d ∈ T.decomp c → T.decomp d = [d])
    (Hl : ∀ b d e, d ∈ T.lower b → e ∈ T.decomp d → T.lower e = [e])
    (Hq : ∀ b d e, b ≠ '?' → d ∈ T.lower b → e ∈ T.decomp d → e ≠ '?')
    (Ha : ∀ b d e, d ∈ T.lower b → e ∈ T.decomp d → e ≠ 'Â')
    (l : List Char) (hl : '?' ∉ l) :
    stripMarks T (nfdChars T (lowerChars T (removeQuestion (replaceMojibake
      (stripMarks T (nfdChars T (lowerChars T l))))))) =
    stripMarks T (nfdChars T (lowerChars T l)) := by
  have hmem : ∀ c ∈ stripMarks T (nfdChars T (lowerChars T l)),
      ∃ b d, b ∈ l ∧ d ∈ T.lower b ∧ c ∈ T.decomp d ∧ T.isMn c = false :=
    fun c hc => mem_normStage T l c hc
  have hnoA : 'Â' ∉ stripMarks T (nfdChars T (lowerChars T l)) := by
    intro hA
    obtain ⟨b, d, hb, hd, he, -⟩ := hmem _ hA
    exact Ha b d 'Â' hd he rfl
  have hnoQ : ∀ c ∈ stripMarks T (nfdChars T (lowerChars T l)), c ≠ '?' := by
    intro c hc
    obtain ⟨b, d, hb, hd, he, -⟩ := hmem c hc
    exact Hq b d c (fun hbq => hl (hbq ▸ hb)) hd he
  have h1 : replaceMojibake (stripMarks T (nfdChars T (lowerChars T l))) =
      stripMarks T (nfdChars T (lowerChars T l)) :=
    replaceMojibake_eq_self _ hnoA
  have h2 : removeQuestion (stripMarks T (nfdChars T (lowerChars T l))) =
      stripMarks T (nfdChars T (lowerChars T l)) := by
    unfold removeQuestion
    apply List.filter_eq_self.mpr
    intro c hc
    simpa using hnoQ c hc
  have h3 : lowerChars T (stripMarks T (nfdChars T (lowerChars T l))) =
      stripMarks T (nfdChars T (lowerChars T l)) := by
    unfold lowerChars
    apply flatMap_id_of_single
    intro c hc
    obtain ⟨b, d, hb, hd, he, -⟩ := hmem c hc
    exact Hl b d c hd he
  have h4 : nfdChars T (stripMarks T (nfdChars T (lowerChars T l))) =
      stripMarks T (nfdChars T (lowerChars T l)) := by
    unfold nfdChars
    apply flatMap_id_of_single
    intro c hc
    obtain ⟨b, d, hb, hd, he, -⟩ := hmem c hc
    exact Hd d c he
  have h5 : stripMarks T (stripMarks T (nfdChars T (lowerChars T l))) =
      stripMarks T (nfdChars T (lowerChars T l)) := by
    unfold stripMarks
    apply List.filter_eq_self.mpr
    intro c hc
    obtain ⟨b, d, hb, hd, he, hm⟩ := hmem c hc
    simp [hm]
  rw [h1, h2, h3, h4, h5]

/-- C9: under the stability properties the real Unicode tables have —
full decompositions are themselves undecomposable, characters produced by
lowercasing and decomposing are case-stable, and neither the question
mark nor the mojibake lead byte is ever produced by those tables — the
query normalization of rag_api is idempotent; moreover get_rag_context
uses the query only through its normalization (the normalized text is
what reaches the embedding call), while the final augmented prompt is
built from the original, unnormalized prompt, which it ends with
verbatim. -/
theorem c9_normalization_idempotent (T : UTables)
    (Hd : ∀ c d, d ∈ T.decomp c → T.decomp d = [d])
    (Hl : ∀ b d e, d ∈ T.lower b → e ∈ T.decomp d → T.lower e = [e])
    (Hq : ∀ b d e, b ≠ '?' → d ∈ T.lower b → e ∈ T.decomp d → e ≠ '?')
    (Ha : ∀ b d e, d ∈ T.lower b → e ∈ T.decomp d → e ≠ 'Â') :
    (∀ q, normalizeQuery T (normalizeQuery T q) = normalizeQuery T q) ∧
    (∀ env q1 q2, normalizeQuery T q1 = normalizeQuery T q2 →
      RagApi.get_rag_context T env q1 = RagApi.get_rag_context T env q2) ∧
    (∀ env d, RagApi.generateAugment T env d = d ∨
      ∃ context, context ≠ "" ∧
        RagApi.get_rag_context T env (d.prompt.getD "") = some context ∧
        RagApi.generateAugment T env d =
          { d with prompt := some (RagApi.buildPrompt context (d.prompt.getD "")) }) ∧
    (∀ context q, ∃ pre, RagApi.buildPrompt context q = pre ++ q) := by
  refine ⟨?_, ?_, ?_, ?_⟩
  · intro q
    unfold normalizeQuery
    apply congrArg String.mk
    apply normStage_fixed T Hd Hl Hq Ha
    intro hq
    have := List.mem_filter.mp hq
    simp at this
  · intro env q1 q2 h
    unfold RagApi.get_rag_context
    rw [h]
  · intro env d
    cases d with
    | mk pr ms st re =>
      simp only [RagApi.generateAugment]
      cases h : RagApi.get_rag_context T env (pr.getD "") with
      | none => exact Or.inl rfl
      | some context =>
        by_cases hc : context = ""
        · simp [hc]
        · simp only [hc, if_false, ite_false, reduceIte]
          exact Or.inr ⟨context, hc, rfl, rfl⟩
  · intro context q
    exact ⟨"INFORMACION:\n" ++ context ++ "\n\n---\n\nBasandote en la informacion anterior:\n", rfl⟩

/-- The sample decomposition table is fully decomposed. -/
theorem sampleTables_decomp_stable :
    ∀ c d, d ∈ sampleTables.decomp c → sampleTables.decomp d = [d] := by
  intro c d hd
  by_cases h1 : c = 'â'
  · subst h1
    simp [sampleTables] at hd
    rcases hd with rfl | rfl <;> decide
  · by_cases h2 : c = 'ó'
    · subst h2
      simp [sampleTables] at hd
      rcases hd with rfl | rfl <;> decide
    · simp [sampleTables, h1, h2] at hd
      subst hd
      simp [sampleTables, h1, h2]

/-- Lowercasing then decomposing through the sample tables yields
case-stable characters. -/
theorem sampleTables_lower_stable :
    ∀ b d e, d ∈ sampleTables.lower b → e ∈ sampleTables.decomp d →
      sampleTables.lower e = [e] := by
  intro b d e hd he
  by_cases hb1 : b = 'Â'
  · subst hb1
    simp [sampleTables] at hd
    subst hd
    simp [sampleTables] at he
    rcases he with rfl | rfl <;> decide
  · by_cases hb2 : b = 'Ó'
    · subst hb2
      simp [sampleTables] at hd
      subst hd
      simp [sampleTables] at he
      rcases he with rfl | rfl <;> decide
    · simp [sampleTables, hb1, hb2] at hd
      subst hd
      by_cases hd1 : d = 'â'
      · subst hd1
        simp [sampleTables] at he
        rcases he with rfl | rfl <;> decide
      · by_cases hd2 : d = 'ó'
        · subst hd2
          simp [sampleTables] at he
          rcases he with rfl | rfl <;> decide
        · simp [sampleTables, hd1, hd2] at he
          subst he
          simp [sampleTables, hb1, hb2]

/-- The sample tables never produce a question mark from a character
that is not one. -/
theorem sampleTables_no_question :
    ∀ b d e, b ≠ '?' → d ∈ sampleTables.lower b → e ∈ sampleTables.decomp d → e ≠ '?' := by
  intro b d e hb hd he
  by_cases hb1 : b = 'Â'
  · subst hb1
    simp [sampleTables] at hd
    subst hd
    simp [sampleTables] at he
    rcases he with rfl | rfl <;> decide
  · by_cases hb2 : b = 'Ó'
    · subst hb2
      simp [sampleTables] at hd
      subst hd
      simp [sampleTables] at he
      rcases he with rfl | rfl <;> decide
    · simp [sampleTables, hb1, hb2] at hd
      subst hd
      by_cases hd1 : d = 'â'
      · subst hd1
        simp [sampleTables] at he
        rcases he with rfl | rfl <;> decide
      · by_cases hd2 : d = 'ó'
        · subst hd2
          simp [sampleTables] at he
          rcases he with rfl | rfl <;> decide
        · simp [sampleTables, hd1, hd2] at he
          subst he
          exact hb

/-- The sample tables never produce the mojibake lead character. -/
theorem sampleTables_no_mojibake :
    ∀ b d e, d ∈ sampleTables.lower b → e ∈ sampleTables.decomp d → e ≠ 'Â' := by
  intro b d e hd he
  by_cases hb1 : b = 'Â'
  · subst hb1
    simp [sampleTables] at hd
    subst hd
    simp [sampleTables] at he
    rcases he with rfl | rfl <;> decide
  · by_cases hb2 : b = 'Ó'
    · subst hb2
      simp [sampleTables] at hd
      subst hd
      simp [sampleTables] at he
      rcases he with rfl | rfl <;> decide
    · simp [sampleTables, hb1, hb2] at hd
      subst hd
      by_cases hd1 : d = 'â'
      · subst hd1
        simp [sampleTables] at he
        rcases he with rfl | rfl <;> decide
      · by_cases hd2 : d = 'ó'
        · subst hd2
          simp [sampleTables] at he
          rcases he with rfl | rfl <;> decide
        · simp [sampleTables, hd1, hd2] at he
          subst he
          exact hb1

/-- Witness for C9 at the sample tables and a concrete mojibake query:
the normalization is idempotent there, and its concrete value shows the
accent and punctuation stripping. -/
theorem c9_normalization_idempotent_witness :
    normalizeQuery sampleTables (normalizeQuery sampleTables "Â¿DÓnde?") =
      normalizeQuery sampleTables "Â¿DÓnde?" ∧
    normalizeQuery sampleTables "Â¿DÓnde?" = "Donde" :=
  ⟨(c9_normalization_idempotent sampleTables sampleTables_decomp_stable
      sampleTables_lower_stable sampleTables_no_question sampleTables_no_mojibake).1
      "Â¿DÓnde?",
   by decide⟩
